import Mathlib

/-!
Verification of the transcript-acquisition pipeline in
`runpod/youtube-worker/handler.py`.

Strings are modelled as `List Char`.  Each Python helper is translated to a
Lean function of the same name (module-private underscores dropped):
`_clean_text` becomes `clean_text`, `_parse_vtt_to_text` becomes
`parse_vtt_to_text`, and so on.  External collaborators (the `yt-dlp`
subprocess, the filesystem, the Whisper model) are modelled by an
environment record `Env` that fixes the outcome of each external call made
while handling one request.
-/

set_option maxRecDepth 10000

/-- Whitespace as recognised by Python's `str.strip` and the regex `\s`
(ASCII whitespace, the C1 separator control characters, and the Unicode
space code points). -/
def pyWS (c : Char) : Bool :=
  [9, 10, 11, 12, 13, 28, 29, 30, 31, 32, 0x85, 0xa0, 0x1680,
   0x2000, 0x2001, 0x2002, 0x2003, 0x2004, 0x2005, 0x2006, 0x2007,
   0x2008, 0x2009, 0x200a, 0x2028, 0x2029, 0x202f, 0x205f, 0x3000].contains c.toNat

/-- Python `str.strip()`: drop leading and trailing whitespace. -/
def stripChars (l : List Char) : List Char :=
  ((l.dropWhile pyWS).reverse.dropWhile pyWS).reverse

/-- One pass of `re.sub(r"\s+", " ", ·)`: replace every maximal whitespace
run by a single space.  The flag records whether the previous character was
whitespace (so the run has already emitted its space). -/
def collapseAux : Bool → List Char → List Char
  | _, [] => []
  | b, c :: rest =>
    if pyWS c then
      if b then collapseAux true rest else ' ' :: collapseAux true rest
    else c :: collapseAux false rest

/-- `_clean_text` from handler.py: `re.sub(r"\s+", " ", (s or "").strip())`. -/
def clean_text (l : List Char) : List Char :=
  collapseAux false (stripChars l)

/-- Does the string start with a whitespace character? -/
def headWS : List Char → Bool
  | [] => false
  | c :: _ => pyWS c

/-- Prepend a character to the first word of a word list, opening a new
word when the list is empty. -/
def consW (c : Char) : List (List Char) → List (List Char)
  | [] => [[c]]
  | w :: ws => (c :: w) :: ws

/-- The maximal whitespace-free runs of a string, in order. -/
def words : List Char → List (List Char)
  | [] => []
  | c :: rest =>
    if pyWS c then words rest
    else if headWS rest then [c] :: words rest
    else consW c (words rest)

/-- Python `" ".join`: concatenate with a single space between elements. -/
def joinW : List (List Char) → List Char
  | [] => []
  | [w] => w
  | w :: ws => w ++ ' ' :: joinW ws

/-- The normalizer as the spec words it: split the input into its maximal
whitespace-free runs and rejoin them with single spaces, which collapses
every whitespace run to one space and trims the ends. -/
def spec_normalize (l : List Char) : List Char :=
  joinW (words l)

/-- Does the string end with a whitespace character? -/
def lastWS : List Char → Bool
  | [] => false
  | [c] => pyWS c
  | _ :: c :: rest => lastWS (c :: rest)

/-- Space emitted before the collapsed body when the run starts inside
fresh (non-whitespace) state on a leading whitespace character. -/
def leadSp (b : Bool) (l : List Char) : List Char :=
  if b = false ∧ headWS l = true then [' '] else []

/-- Space emitted after the collapsed body when the string ends in
whitespace that follows at least one word. -/
def trailSp (l : List Char) : List Char :=
  if words l ≠ [] ∧ lastWS l = true then [' '] else []

/-- Python `str.replace` of CRLF by LF: scan left to right, non-overlapping. -/
def replCRLF : List Char → List Char
  | [] => []
  | [c] => [c]
  | c :: d :: rest =>
    if c = '\r' ∧ d = '\n' then '\n' :: replCRLF rest
    else c :: replCRLF (d :: rest)

/-- Python `str.split` on a single newline: the list of lines, keeping
empty segments, so the result is always nonempty. -/
def splitLines : List Char → List (List Char)
  | [] => [[]]
  | c :: rest =>
    if c = '\n' then [] :: splitLines rest
    else
      match splitLines rest with
      | [] => [[c]]
      | l :: ls => (c :: l) :: ls

/-- Drop elements up to and including the first empty line, provided that
empty line is not the last element of the document.  In string terms this
finds the first `"\n\n"` and removes everything through it, returning
`none` when no `"\n\n"` exists (an empty final element corresponds to a
single trailing newline, not to a blank line inside the document). -/
def dropThruBlank : List (List Char) → Option (List (List Char))
  | [] => none
  | [_] => none
  | l :: l2 :: ls =>
    if l = [] then some (l2 :: ls) else dropThruBlank (l2 :: ls)

/-- The header substitution `re.sub(r"^WEBVTT[\s\S]*?\n\n", "", t)`:
anchored at the start of the document only; removes from a leading
`WEBVTT` signature through the first blank line, and removes nothing when
the document has no blank line. -/
def stripHeader (ls : List (List Char)) : List (List Char) :=
  match ls with
  | [] => []
  | l :: _ =>
    if l.take 6 = ("WEBVTT").data then
      match dropThruBlank ls with
      | some rest => rest
      | none => ls
    else ls

/-- The NOTE substitution `re.sub(r"^NOTE[\s\S]*?\n\n", "", t, flags=re.MULTILINE)`:
scan line starts left to right; a line starting with `NOTE` that is
followed (at any later point) by a blank line is removed together with
everything through that blank line, and scanning resumes after it; a
`NOTE` line with no later blank line matches nothing and is kept.  The
flag is true while consuming a matched block. -/
def stripNotesAux : Bool → List (List Char) → List (List Char)
  | _, [] => []
  | true, l :: ls => if l = [] then stripNotesAux false ls else stripNotesAux true ls
  | false, l :: ls =>
    if l.take 4 = ("NOTE").data ∧ (dropThruBlank (l :: ls)).isSome then
      stripNotesAux true ls
    else l :: stripNotesAux false ls

/-- All NOTE blocks removed, starting at a line start. -/
def stripNotes (ls : List (List Char)) : List (List Char) :=
  stripNotesAux false ls

/-- The inline-tag substitution `re.sub(r"<[^>]+>", "", line)`: a `<`
followed by at least one non-`>` character and then a `>` is removed
together with the enclosed characters; a `<` with no such closing `>`
(immediately closed or never closed) is kept.  The flag is true while
consuming a matched tag. -/
def stripTagsAux : Bool → List Char → List Char
  | _, [] => []
  | true, c :: rest => if c = '>' then stripTagsAux false rest else stripTagsAux true rest
  | false, c :: rest =>
    if c = '<' then
      match rest with
      | [] => ['<']
      | d :: _ => if d ≠ '>' ∧ '>' ∈ rest then stripTagsAux true rest
                  else '<' :: stripTagsAux false rest
    else c :: stripTagsAux false rest

/-- Python's substring test `pat in l`: does `pat` occur contiguously in
`l`? -/
def hasRun (pat : List Char) : List Char → Bool
  | [] => pat.isEmpty
  | c :: rest => pat.isPrefixOf (c :: rest) || hasRun pat rest

/-- The body of the per-line loop of `_parse_vtt_to_text`: strip the line;
skip it when empty, when it contains the timing separator, or when it is
entirely decimal digits; otherwise strip inline tags and keep the line if
anything remains. -/
def lineText (l : List Char) : Option (List Char) :=
  let t := stripChars l
  if t = [] then none
  else if hasRun ("-->").data t then none
  else if t.all Char.isDigit then none
  else
    let u := stripTagsAux false t
    if u = [] then none else some u

/-- `_parse_vtt_to_text` from handler.py. -/
def parse_vtt_to_text (s : List Char) : List Char :=
  let ls := stripNotes (stripHeader (splitLines (replCRLF s)))
  clean_text (joinW (ls.filterMap lineText))

/-- Outcome of running a piece of Python code: a normal return value or a
raised exception carrying its message. -/
inductive POut (α : Type) where
  | ret : α → POut α
  | exn : List Char → POut α
deriving DecidableEq

/-- The handler's response dictionary: either
`{"transcript": ..., "method": ..., "lang": ...}` or `{"error": ...}`. -/
inductive Response where
  | ok : List Char → List Char → List Char → Response
  | err : List Char → Response
deriving DecidableEq

/-- One invocation of an external collaborator, in the order the handler
makes them: the two subtitle downloads, the audio download, and the ASR
model. -/
inductive Ev where
  | subsManual
  | subsAuto
  | audioDl
  | asrCall
deriving DecidableEq

/-- Environment fixing the outcome of every external interaction during
one request: the temporary directory name, the outcomes of the two
swallowed subtitle runs, the directory listing after the subtitle
attempts, file contents, the audio run outcome, the directory listing
used by the audio glob, and the ASR outcome (its segment texts). -/
structure Env where
  workdir : List Char
  subsManualRun : POut Unit
  subsAutoRun : POut Unit
  filesAfterSubs : List (List Char)
  readFile : List Char → List Char
  audioRun : POut Unit
  filesAfterAudio : List (List Char)
  asr : POut (List (List Char))

/-- One request event: the optional `input.youtubeUrl` and `input.lang`
values (absent key and absent `input` collapse to `none`). -/
structure Request where
  youtubeUrl : Option (List Char)
  lang : Option (List Char)

/-- Python `x or default` for an optional string: the default when the
value is absent or empty (falsy). -/
def pyOr (o : Option (List Char)) (d : List Char) : List Char :=
  match o with
  | none => d
  | some s => if s = [] then d else s

/-- `str(inp.get("youtubeUrl") or "").strip()`. -/
def reqUrl (req : Request) : List Char :=
  stripChars (pyOr req.youtubeUrl [])

/-- `str(inp.get("lang") or "en").strip() or "en"`. -/
def reqLang (req : Request) : List Char :=
  let l := stripChars (pyOr req.lang ("en").data)
  if l = [] then ("en").data else l

/-- Does a file name match the glob pattern `subs.*.vtt`? -/
def strictMatch (name : List Char) : Bool :=
  ("subs.").data.isPrefixOf name && (".vtt").data.isSuffixOf name
    && decide (9 ≤ name.length)

/-- Does a file name match the glob pattern `*.vtt`?  (Glob excludes
names beginning with a dot from `*`.) -/
def broadMatch (name : List Char) : Bool :=
  match name with
  | [] => false
  | c :: _ => decide (c ≠ '.') && (".vtt").data.isSuffixOf name

/-- Does a file name match the glob pattern `audio.*`? -/
def audioMatch (name : List Char) : Bool :=
  ("audio.").data.isPrefixOf name

/-- The test `f".{lang}." in p` from `_download_subtitles`, applied to a
full path. -/
def langTagIn (lang p : List Char) : Bool :=
  hasRun ('.' :: (lang ++ ['.'])) p

/-- The selection logic of `_download_subtitles`, after the two swallowed
download attempts: glob `subs.*.vtt`, broadening to `*.vtt` when empty;
`None` when still empty; else the first path containing `f".{lang}."`,
falling back to the first element of the glob listing.  `glob.glob`
returns paths in directory-enumeration order, which this model takes as
the order of `files`. -/
def download_subtitles (workdir : List Char) (files : List (List Char))
    (lang : List Char) : Option (List Char) :=
  let strict := (files.filter strictMatch).map (fun n => workdir ++ '/' :: n)
  let cands := if strict.isEmpty
    then (files.filter broadMatch).map (fun n => workdir ++ '/' :: n)
    else strict
  match cands with
  | [] => none
  | v :: vs =>
    match (v :: vs).find? (fun p => langTagIn lang p) with
    | some p => some p
    | none => some v

/-- `_download_audio`: propagate a raised run error; glob `audio.*`; raise
`RuntimeError("Audio download produced no file")` when the glob is empty;
otherwise return the first path. -/
def download_audio (env : Env) : POut (List Char) :=
  match env.audioRun with
  | POut.exn e => POut.exn e
  | POut.ret _ =>
    match (env.filesAfterAudio.filter audioMatch).map
        (fun n => env.workdir ++ '/' :: n) with
    | [] => POut.exn ("Audio download produced no file").data
    | c :: _ => POut.ret c

/-- `_transcribe_with_faster_whisper`: propagate a raised model error;
otherwise keep the truthy (nonempty) segment texts, join with spaces and
normalize. -/
def transcribe_with_faster_whisper (env : Env) : POut (List Char) :=
  match env.asr with
  | POut.exn e => POut.exn e
  | POut.ret segs =>
    POut.ret (clean_text (joinW (segs.filter (fun s => !s.isEmpty))))

/-- The ASR fallback tier of `handler`: download audio, transcribe, and
return the transcript or the empty-transcript error; exceptions raised by
the audio download, the zero-file check, or the ASR model propagate.  The
trace also records the two subtitle attempts that always precede this
tier. -/
def fallbackASR (env : Env) (lang : List Char) : POut Response × List Ev :=
  match download_audio env with
  | POut.exn e => (POut.exn e, [Ev.subsManual, Ev.subsAuto, Ev.audioDl])
  | POut.ret _ =>
    match transcribe_with_faster_whisper env with
    | POut.exn e => (POut.exn e, [Ev.subsManual, Ev.subsAuto, Ev.audioDl, Ev.asrCall])
    | POut.ret text =>
      if text = [] then
        (POut.ret (Response.err ("ASR returned empty transcript").data),
          [Ev.subsManual, Ev.subsAuto, Ev.audioDl, Ev.asrCall])
      else
        (POut.ret (Response.ok text ("asr").data lang),
          [Ev.subsManual, Ev.subsAuto, Ev.audioDl, Ev.asrCall])

/-- `handler` from handler.py, paired with the trace of external
collaborator invocations it performs. -/
def handler (env : Env) (req : Request) : POut Response × List Ev :=
  let url := reqUrl req
  let lang := reqLang req
  if url = [] then
    (POut.ret (Response.err ("Missing input.youtubeUrl").data), [])
  else
    match download_subtitles env.workdir env.filesAfterSubs lang with
    | some p =>
      let text := parse_vtt_to_text (env.readFile p)
      if text = [] then fallbackASR env lang
      else (POut.ret (Response.ok text ("subtitles").data lang),
        [Ev.subsManual, Ev.subsAuto])
    | none => fallbackASR env lang

/-- Did the caption tier fail to produce usable text: no selected caption
file, or a selected file whose parse is empty? -/
def captionsFailed (env : Env) (lang : List Char) : Bool :=
  match download_subtitles env.workdir env.filesAfterSubs lang with
  | none => true
  | some p => (parse_vtt_to_text (env.readFile p)).isEmpty

/-- Concrete environments and request used by witnesses and
counterexamples below. -/
def wd0 : List Char := ("/tmp/wd").data

/-- A request with a nonempty URL and no language hint. -/
def reqMain : Request := ⟨some ("https://youtu.be/x").data, none⟩

/-- Captions absent; audio download runs but deposits no file. -/
def envNoCapNoAudioFile : Env :=
  ⟨wd0, POut.ret (), POut.ret (), [], fun _ => [], POut.ret (), [], POut.ret []⟩

/-- Captions absent; the audio download subprocess raises. -/
def envNoCapAudioRaise : Env :=
  ⟨wd0, POut.exn ("subs failed").data, POut.exn ("subs failed").data, [],
    fun _ => [], POut.exn ("yt-dlp error").data, [], POut.ret []⟩

/-- A caption file found only by the broadened scan, with a name that does
not embed the requested language tag. -/
def envBroadCaptions : Env :=
  ⟨wd0, POut.ret (), POut.ret (), [("other.vtt").data],
    fun _ => ("hello there").data, POut.ret (), [], POut.ret []⟩

theorem headWS_append (l t : List Char) (h : l ≠ []) :
    headWS (l ++ t) = headWS l := by
  cases l with
  | nil => exact absurd rfl h
  | cons c rest => rfl

theorem lastWS_cons_of_ne_nil (c : Char) (l : List Char) (h : l ≠ []) :
    lastWS (c :: l) = lastWS l := by
  cases l with
  | nil => exact absurd rfl h
  | cons d rest => rfl

theorem lastWS_eq_headWS_reverse : ∀ l : List Char, lastWS l = headWS l.reverse := by
  intro l
  induction l with
  | nil => rfl
  | cons c rest ih =>
    cases rest with
    | nil => rfl
    | cons d rest2 =>
      have h2 : headWS ((c :: d :: rest2).reverse) = headWS ((d :: rest2).reverse) := by
        rw [List.reverse_cons c (d :: rest2)]
        exact headWS_append ((d :: rest2).reverse) [c] (by simp)
      rw [lastWS_cons_of_ne_nil c (d :: rest2) (by simp), ih, h2]

theorem words_nil_iff_all (l : List Char) : words l = [] ↔ l.all pyWS = true := by
  induction l with
  | nil => simp [words]
  | cons c rest ih =>
    cases hc : pyWS c with
    | true => simp [words, hc, ih]
    | false =>
      cases hh : headWS rest with
      | true => simp [words, hc, hh]
      | false =>
        cases hw : words rest with
        | nil => simp [words, consW, hc, hh, hw]
        | cons w ws => simp [words, consW, hc, hh, hw]

theorem words_ne_nil_of_head (c : Char) (rest : List Char) (hc : pyWS c = false) :
    words (c :: rest) ≠ [] := by
  intro h
  rw [words_nil_iff_all] at h
  simp [hc] at h

theorem lastWS_all (l : List Char) (h : l.all pyWS = true) (hne : l ≠ []) :
    lastWS l = true := by
  induction l with
  | nil => exact absurd rfl hne
  | cons c rest ih =>
    simp only [List.all_cons, Bool.and_eq_true] at h
    cases rest with
    | nil => simpa [lastWS] using h.1
    | cons d rest2 =>
      rw [lastWS_cons_of_ne_nil c (d :: rest2) (by simp)]
      exact ih h.2 (by simp)

theorem joinW_cons_head (c : Char) (w : List Char) (ws : List (List Char)) :
    joinW ((c :: w) :: ws) = c :: joinW (w :: ws) := by
  cases ws with
  | nil => rfl
  | cons w2 ws2 => rfl

theorem words_cons_ws (c : Char) (rest : List Char) (hc : pyWS c = true) :
    words (c :: rest) = words rest := by
  simp [words, hc]

theorem words_cons_mid (c : Char) (rest : List Char) (hc : pyWS c = false)
    (hh : headWS rest = true) : words (c :: rest) = [c] :: words rest := by
  simp [words, hc, hh]

theorem words_cons_run (c : Char) (rest : List Char) (hc : pyWS c = false)
    (hh : headWS rest = false) : words (c :: rest) = consW c (words rest) := by
  simp [words, hc, hh]

theorem trailSp_cons_ws (c : Char) (rest : List Char) (hc : pyWS c = true) :
    trailSp (c :: rest) = trailSp rest := by
  cases rest with
  | nil =>
    rw [trailSp, trailSp, words_cons_ws c [] hc]
    simp [words]
  | cons d r2 =>
    rw [trailSp, trailSp, words_cons_ws c (d :: r2) hc,
      lastWS_cons_of_ne_nil c (d :: r2) (by simp)]

theorem trailSp_cons_of_ne (c : Char) (rest : List Char) (h : rest ≠ [])
    (hnz : words rest ≠ []) : trailSp (c :: rest) = trailSp rest := by
  have h1 : lastWS (c :: rest) = lastWS rest := lastWS_cons_of_ne_nil c rest h
  have h2 : words (c :: rest) ≠ [] := by
    cases hc : pyWS c with
    | true => rw [words_cons_ws c rest hc]; exact hnz
    | false => exact words_ne_nil_of_head c rest hc
  rw [trailSp, trailSp, h1]
  simp [h2, hnz]

theorem collapse_formula :
    ∀ (l : List Char) (b : Bool),
      collapseAux b l = leadSp b l ++ joinW (words l) ++ trailSp l := by
  intro l
  induction l with
  | nil => intro b; simp [collapseAux, words, joinW, leadSp, trailSp, headWS]
  | cons c rest ih =>
    intro b
    cases hc : pyWS c with
    | true =>
      have hw : words (c :: rest) = words rest := words_cons_ws c rest hc
      have ht : trailSp (c :: rest) = trailSp rest := trailSp_cons_ws c rest hc
      have hhead : headWS (c :: rest) = true := hc
      cases b with
      | true =>
        have := ih true
        simp only [collapseAux, hc, if_pos, if_true]
        rw [this, hw, ht]
        simp [leadSp]
      | false =>
        have := ih true
        simp only [collapseAux, hc, if_pos, if_true]
        rw [this, hw, ht]
        simp [leadSp, hhead]
    | false =>
      have hlead : headWS (c :: rest) = false := hc
      have hlhs : collapseAux b (c :: rest) = c :: collapseAux false rest := by
        simp [collapseAux, hc]
      rw [hlhs, ih false]
      cases hh : headWS rest with
      | true =>
        have hrne : rest ≠ [] := by
          intro hcon; rw [hcon] at hh; exact Bool.false_ne_true hh
        have hw : words (c :: rest) = [c] :: words rest := words_cons_mid c rest hc hh
        cases hwr : words rest with
        | nil =>
          have hall : rest.all pyWS = true := (words_nil_iff_all rest).mp hwr
          have hlast : lastWS rest = true := lastWS_all rest hall hrne
          have hlastc : lastWS (c :: rest) = true := by
            rw [lastWS_cons_of_ne_nil c rest hrne]; exact hlast
          rw [hw, hwr]
          simp [leadSp, trailSp, hh, hlastc, hw, hwr, joinW, hlead]
        | cons w ws =>
          have ht : trailSp (c :: rest) = trailSp rest :=
            trailSp_cons_of_ne c rest hrne (by rw [hwr]; simp)
          rw [hw, hwr, ht]
          simp [leadSp, hh, hlead, joinW]
      | false =>
        have hw : words (c :: rest) = consW c (words rest) := words_cons_run c rest hc hh
        cases hwr : words rest with
        | nil =>
          have hall : rest.all pyWS = true := (words_nil_iff_all rest).mp hwr
          have hrnil : rest = [] := by
            cases rest with
            | nil => rfl
            | cons d r2 =>
              exfalso
              have : pyWS d = true := by
                have := hall
                simp only [List.all_cons, Bool.and_eq_true] at this
                exact this.1
              rw [headWS] at hh
              rw [this] at hh
              exact Bool.noConfusion hh
          subst hrnil
          simp [hw, hwr, consW, joinW, leadSp, trailSp, words, lastWS, hc,
            collapseAux, headWS]
        | cons w ws =>
          have hrne : rest ≠ [] := by
            intro hcon; rw [hcon] at hwr; simp [words] at hwr
          have ht : trailSp (c :: rest) = trailSp rest :=
            trailSp_cons_of_ne c rest hrne (by rw [hwr]; simp)
          rw [hw, hwr, ht, consW, joinW_cons_head]
          simp [leadSp, hh, hlead]

theorem headWS_dropWhile (l : List Char) : headWS (l.dropWhile pyWS) = false := by
  induction l with
  | nil => rfl
  | cons c rest ih =>
    cases hc : pyWS c with
    | true => rw [List.dropWhile_cons, if_pos hc]; exact ih
    | false => rw [List.dropWhile_cons, if_neg (by simp [hc])]; exact hc

theorem all_takeWhile (p : Char → Bool) (l : List Char) :
    (l.takeWhile p).all p = true := by
  induction l with
  | nil => rfl
  | cons c rest ih =>
    cases hc : p c with
    | true => rw [List.takeWhile_cons, if_pos hc]; simp [hc, ih]
    | false => rw [List.takeWhile_cons, if_neg (by simp [hc])]; rfl

theorem stripChars_decomp (l : List Char) :
    stripChars l ++ ((l.dropWhile pyWS).reverse.takeWhile pyWS).reverse
      = l.dropWhile pyWS := by
  rw [stripChars, ← List.reverse_append, List.takeWhile_append_dropWhile,
    List.reverse_reverse]

theorem headWS_stripChars (l : List Char) : headWS (stripChars l) = false := by
  by_cases hnil : stripChars l = []
  · rw [hnil]; rfl
  · have hU : headWS (l.dropWhile pyWS) = false := headWS_dropWhile l
    rw [← stripChars_decomp l] at hU
    rw [headWS_append _ _ hnil] at hU
    exact hU

theorem lastWS_stripChars (l : List Char) : lastWS (stripChars l) = false := by
  rw [lastWS_eq_headWS_reverse, stripChars, List.reverse_reverse]
  exact headWS_dropWhile _

theorem words_dropWhile (l : List Char) : words (l.dropWhile pyWS) = words l := by
  induction l with
  | nil => rfl
  | cons c rest ih =>
    cases hc : pyWS c with
    | true => rw [List.dropWhile_cons, hc, words_cons_ws c rest hc]; simpa using ih
    | false => rw [List.dropWhile_cons, hc]; simp

theorem words_append_allWS (x w : List Char) (hw : w.all pyWS = true) :
    words (x ++ w) = words x := by
  induction x with
  | nil =>
    simp only [List.nil_append, words]
    exact (words_nil_iff_all w).mpr hw
  | cons c x2 ih =>
    cases hc : pyWS c with
    | true =>
      rw [List.cons_append, words_cons_ws c (x2 ++ w) hc, words_cons_ws c x2 hc]
      exact ih
    | false =>
      cases x2 with
      | nil =>
        simp only [List.cons_append, List.nil_append]
        cases w with
        | nil => rfl
        | cons d w2 =>
          have hd : pyWS d = true := by
            simp only [List.all_cons, Bool.and_eq_true] at hw
            exact hw.1
          rw [words_cons_mid c (d :: w2) hc (by simpa [headWS] using hd)]
          rw [(words_nil_iff_all (d :: w2)).mpr hw]
          simp [words, headWS, consW, hc]
      | cons d x3 =>
        have hhead : headWS ((d :: x3) ++ w) = headWS (d :: x3) := by
          rw [headWS_append (d :: x3) w (by simp)]
        cases hh : headWS (d :: x3) with
        | true =>
          rw [List.cons_append, words_cons_mid c ((d :: x3) ++ w) hc (by rw [hhead]; exact hh),
            words_cons_mid c (d :: x3) hc hh, ih]
        | false =>
          rw [List.cons_append, words_cons_run c ((d :: x3) ++ w) hc (by rw [hhead]; exact hh),
            words_cons_run c (d :: x3) hc hh, ih]

theorem words_stripChars (l : List Char) : words (stripChars l) = words l := by
  have h1 : words (stripChars l ++ ((l.dropWhile pyWS).reverse.takeWhile pyWS).reverse)
      = words (stripChars l) := by
    apply words_append_allWS
    rw [List.all_reverse]
    exact all_takeWhile pyWS _
  rw [stripChars_decomp l] at h1
  rw [← h1, words_dropWhile l]

theorem clean_eq (l : List Char) : clean_text l = joinW (words l) := by
  rw [clean_text, collapse_formula (stripChars l) false]
  rw [words_stripChars]
  have h1 : leadSp false (stripChars l) = [] := by
    rw [leadSp]
    simp [headWS_stripChars l]
  have h2 : trailSp (stripChars l) = [] := by
    rw [trailSp]
    simp [lastWS_stripChars l, words_stripChars]
  rw [h1, h2]
  simp

/-- Every word produced by `words` is nonempty and whitespace-free. -/
theorem words_good (l : List Char) :
    ∀ w ∈ words l, w ≠ [] ∧ ∀ c ∈ w, pyWS c = false := by
  induction l with
  | nil => intro w hw; simp [words] at hw
  | cons c rest ih =>
    intro w hw
    cases hc : pyWS c with
    | true =>
      rw [words_cons_ws c rest hc] at hw
      exact ih w hw
    | false =>
      cases hh : headWS rest with
      | true =>
        rw [words_cons_mid c rest hc hh] at hw
        rcases List.mem_cons.mp hw with h1 | h2
        · subst h1
          refine ⟨by simp, ?_⟩
          intro d hd
          rcases List.mem_singleton.mp hd with rfl
          exact hc
        · exact ih w h2
      | false =>
        rw [words_cons_run c rest hc hh] at hw
        cases hwr : words rest with
        | nil =>
          rw [hwr] at hw
          rcases List.mem_singleton.mp (by simpa [consW] using hw) with rfl
          refine ⟨by simp, ?_⟩
          intro d hd
          rcases List.mem_singleton.mp hd with rfl
          exact hc
        | cons w0 ws0 =>
          rw [hwr] at hw
          simp only [consW] at hw
          rcases List.mem_cons.mp hw with h1 | h2
          · subst h1
            have hgood := ih w0 (by rw [hwr]; exact List.mem_cons_self w0 ws0)
            refine ⟨by simp, ?_⟩
            intro d hd
            rcases List.mem_cons.mp hd with rfl | hd2
            · exact hc
            · exact hgood.2 d hd2
          · exact ih w (by rw [hwr]; exact List.mem_cons_of_mem w0 h2)

/-- A nonempty whitespace-free string is a single word. -/
theorem words_single (w : List Char) (hne : w ≠ [])
    (hgood : ∀ c ∈ w, pyWS c = false) : words w = [w] := by
  induction w with
  | nil => exact absurd rfl hne
  | cons c rest ih =>
    have hc : pyWS c = false := hgood c (List.mem_cons_self c rest)
    cases rest with
    | nil => simp [words, headWS, consW, hc]
    | cons d rest2 =>
      have hd : pyWS d = false := hgood d (by simp)
      have hh : headWS (d :: rest2) = false := by simpa [headWS] using hd
      rw [words_cons_run c (d :: rest2) hc hh]
      rw [ih (by simp) (fun e he => hgood e (List.mem_cons_of_mem c he))]
      rfl

/-- Splitting a word, a space, and a remainder recovers the word as the
first element. -/
theorem words_word_space (w t : List Char) (hne : w ≠ [])
    (hgood : ∀ c ∈ w, pyWS c = false) :
    words (w ++ ' ' :: t) = w :: words t := by
  induction w with
  | nil => exact absurd rfl hne
  | cons c rest ih =>
    have hc : pyWS c = false := hgood c (List.mem_cons_self c rest)
    cases rest with
    | nil =>
      rw [List.cons_append, List.nil_append]
      rw [words_cons_mid c (' ' :: t) hc (by simp [headWS, pyWS])]
      rw [words_cons_ws ' ' t (by simp [pyWS])]
    | cons d rest2 =>
      have hd : pyWS d = false := hgood d (by simp)
      rw [List.cons_append]
      rw [words_cons_run c ((d :: rest2) ++ ' ' :: t) hc
        (by simpa [headWS] using hd)]
      rw [ih (by simp) (fun e he => hgood e (List.mem_cons_of_mem c he))]
      rfl

/-- Rebuilding a good word list from its joined rendering recovers it. -/
theorem words_joinW (W : List (List Char))
    (hgood : ∀ w ∈ W, w ≠ [] ∧ ∀ c ∈ w, pyWS c = false) :
    words (joinW W) = W := by
  induction W with
  | nil => rfl
  | cons w ws ih =>
    cases ws with
    | nil =>
      have h := hgood w (List.mem_cons_self w [])
      simpa [joinW] using words_single w h.1 h.2
    | cons w2 ws2 =>
      have h := hgood w (List.mem_cons_self w (w2 :: ws2))
      have hrest : words (joinW (w2 :: ws2)) = w2 :: ws2 :=
        ih (fun v hv => hgood v (List.mem_cons_of_mem w hv))
      calc words (joinW (w :: w2 :: ws2))
          = words (w ++ ' ' :: joinW (w2 :: ws2)) := rfl
        _ = w :: words (joinW (w2 :: ws2)) := words_word_space w _ h.1 h.2
        _ = w :: w2 :: ws2 := by rw [hrest]

/-- The normalizer is idempotent. -/
theorem clean_text_idem (l : List Char) :
    clean_text (clean_text l) = clean_text l := by
  rw [clean_eq l, clean_eq (joinW (words l)), words_joinW (words l) (words_good l)]

/-- C4: the caption parser maps the given WEBVTT document to exactly
"Hello world Goodbye", dropping the header block, the timing lines, the
numeric cue-index lines and the inline tags while keeping the enclosed
text in order, joined by single spaces. -/
theorem c4_parser_example :
    parse_vtt_to_text ("WEBVTT\n\n1\n00:00:01.000 --> 00:00:02.000\nHello <c>world</c>\n\n2\n00:00:02.000 --> 00:00:03.000\nGoodbye\n").data
      = ("Hello world Goodbye").data := by decide

/-- C6: a missing or blank source URL makes the handler return the
missing-URL error record immediately, with no external collaborator
invoked (empty trace).  The concrete message in the code is
"Missing input.youtubeUrl". -/
theorem c6_missing_url (env : Env) (req : Request) (h : reqUrl req = []) :
    handler env req =
      (POut.ret (Response.err ("Missing input.youtubeUrl").data), []) := by
  simp [handler, h]

/-- Witness for C6 at the empty request `{input: {}}`. -/
theorem c6_missing_url_witness :
    handler envBroadCaptions ⟨none, none⟩ =
      (POut.ret (Response.err ("Missing input.youtubeUrl").data), []) :=
  c6_missing_url envBroadCaptions ⟨none, none⟩ (by decide)

/-- C7: the normalizer collapses every whitespace run to a single space
and trims the ends (it equals the spec-side word-join normalizer on every
string), and on "a\n\n  b\t\tc  " it returns exactly "a b c". -/
theorem c7_normalizer :
    (∀ s : List Char, clean_text s = spec_normalize s) ∧
    clean_text ("a\n\n  b\t\tc  ").data = ("a b c").data :=
  ⟨fun s => clean_eq s, by decide⟩

/-- C8: the normalizer is idempotent on every string. -/
theorem c8_normalize_idem (s : List Char) :
    clean_text (clean_text s) = clean_text s :=
  clean_text_idem s

theorem fallback_outcome (env : Env) (lang : List Char) :
    (∃ r, (fallbackASR env lang).1 = POut.ret r) ∨
    (∃ e, (fallbackASR env lang).1 = POut.exn e ∧
      (env.audioRun = POut.exn e ∨
        e = ("Audio download produced no file").data ∨
        env.asr = POut.exn e)) := by
  cases har : env.audioRun with
  | exn e =>
    right
    exact ⟨e, by simp [fallbackASR, download_audio, har], Or.inl rfl⟩
  | ret u =>
    cases hglob : (env.filesAfterAudio.filter audioMatch).map
        (fun n => env.workdir ++ '/' :: n) with
    | nil =>
      right
      refine ⟨("Audio download produced no file").data, ?_, Or.inr (Or.inl rfl)⟩
      simp [fallbackASR, download_audio, har, hglob]
    | cons c cs =>
      cases hasr : env.asr with
      | exn e =>
        right
        refine ⟨e, ?_, Or.inr (Or.inr rfl)⟩
        simp [fallbackASR, download_audio, transcribe_with_faster_whisper,
          har, hglob, hasr]
      | ret segs =>
        left
        by_cases ht : clean_text (joinW (segs.filter (fun s => !s.isEmpty))) = []
        · exact ⟨Response.err ("ASR returned empty transcript").data, by
            simp [fallbackASR, download_audio, transcribe_with_faster_whisper,
              har, hglob, hasr, ht]⟩
        · exact ⟨Response.ok (clean_text (joinW (segs.filter (fun s => !s.isEmpty))))
            ("asr").data lang, by
            simp [fallbackASR, download_audio, transcribe_with_faster_whisper,
              har, hglob, hasr, ht]⟩

/-- C1 (amended): the handler yields exactly one outcome per request, but
that outcome is either a single returned response record or a raised
exception; every exception that escapes originates in the ASR fallback
tier — the audio subprocess fault, the zero-file RuntimeError, or the ASR
model fault.  The caption tier and input validation never raise. -/
theorem c1_one_outcome_or_fallback_exception (env : Env) (req : Request) :
    (∃ r, (handler env req).1 = POut.ret r) ∨
    (∃ e, (handler env req).1 = POut.exn e ∧
      (env.audioRun = POut.exn e ∨
        e = ("Audio download produced no file").data ∨
        env.asr = POut.exn e)) := by
  by_cases hurl : reqUrl req = []
  · left
    exact ⟨Response.err ("Missing input.youtubeUrl").data, by simp [handler, hurl]⟩
  · cases hsel : download_subtitles env.workdir env.filesAfterSubs (reqLang req) with
    | none =>
      have heq : handler env req = fallbackASR env (reqLang req) := by
        simp [handler, hurl, hsel]
      rw [heq]
      exact fallback_outcome env (reqLang req)
    | some p =>
      by_cases htext : parse_vtt_to_text (env.readFile p) = []
      · have heq : handler env req = fallbackASR env (reqLang req) := by
          simp [handler, hurl, hsel, htext]
        rw [heq]
        exact fallback_outcome env (reqLang req)
      · left
        exact ⟨Response.ok (parse_vtt_to_text (env.readFile p))
          ("subtitles").data (reqLang req), by simp [handler, hurl, hsel, htext]⟩

/-- C1 counterexample: with no captions available and an audio download
that deposits zero files, the handler raises (the RuntimeError message
escapes) instead of returning a structured error record. -/
theorem c1_fault_escapes_counterexample :
    (handler envNoCapNoAudioFile reqMain).1 =
      POut.exn ("Audio download produced no file").data ∧
    (handler envNoCapNoAudioFile reqMain).1 ≠
      POut.ret (Response.err ("Audio download produced no file").data) := by
  constructor
  · decide
  · decide

theorem fallback_ok_lang (env : Env) (lang t m l : List Char)
    (h : (fallbackASR env lang).1 = POut.ret (Response.ok t m l)) : l = lang := by
  cases hda : download_audio env with
  | exn e => simp [fallbackASR, hda] at h
  | ret p =>
    cases ht : transcribe_with_faster_whisper env with
    | exn e => simp [fallbackASR, hda, ht] at h
    | ret text =>
      by_cases hx : text = []
      · simp [fallbackASR, hda, ht, hx] at h
      · simp [fallbackASR, hda, ht, hx] at h
        exact h.2.2.symm

/-- C10: whenever the handler returns a success record, its language field
is exactly the request's trimmed language hint (default "en"), whatever
caption file was selected. -/
theorem c10_lang_from_hint (env : Env) (req : Request) (t m l : List Char)
    (h : (handler env req).1 = POut.ret (Response.ok t m l)) :
    l = reqLang req := by
  by_cases hurl : reqUrl req = []
  · simp [handler, hurl] at h
  · cases hsel : download_subtitles env.workdir env.filesAfterSubs (reqLang req) with
    | none =>
      have heq : handler env req = fallbackASR env (reqLang req) := by
        simp [handler, hurl, hsel]
      rw [heq] at h
      exact fallback_ok_lang env (reqLang req) t m l h
    | some p =>
      by_cases htext : parse_vtt_to_text (env.readFile p) = []
      · have heq : handler env req = fallbackASR env (reqLang req) := by
          simp [handler, hurl, hsel, htext]
        rw [heq] at h
        exact fallback_ok_lang env (reqLang req) t m l h
      · simp [handler, hurl, hsel, htext] at h
        exact h.2.2.symm

/-- Witness for C10: the broadened scan picks `other.vtt`, whose name does
not embed the hint, yet the reported language is still the hint "en". -/
theorem c10_lang_from_hint_witness : ("en").data = reqLang reqMain :=
  c10_lang_from_hint envBroadCaptions reqMain ("hello there").data
    ("subtitles").data ("en").data (by decide)

theorem handler_eq_fallback (env : Env) (req : Request) (hurl : reqUrl req ≠ [])
    (hcf : captionsFailed env (reqLang req) = true) :
    handler env req = fallbackASR env (reqLang req) := by
  cases hsel : download_subtitles env.workdir env.filesAfterSubs (reqLang req) with
  | none => simp [handler, hurl, hsel]
  | some p =>
    simp only [captionsFailed, hsel] at hcf
    have htext : parse_vtt_to_text (env.readFile p) = [] := by
      simpa using hcf
    simp [handler, hurl, hsel, htext]

theorem handler_eq_captions (env : Env) (req : Request) (hurl : reqUrl req ≠ [])
    (hcf : captionsFailed env (reqLang req) = false) :
    ∃ p, download_subtitles env.workdir env.filesAfterSubs (reqLang req) = some p ∧
      parse_vtt_to_text (env.readFile p) ≠ [] ∧
      handler env req =
        (POut.ret (Response.ok (parse_vtt_to_text (env.readFile p))
          ("subtitles").data (reqLang req)), [Ev.subsManual, Ev.subsAuto]) := by
  cases hsel : download_subtitles env.workdir env.filesAfterSubs (reqLang req) with
  | none => exfalso; simp [captionsFailed, hsel] at hcf
  | some p =>
    simp only [captionsFailed, hsel] at hcf
    have hne : parse_vtt_to_text (env.readFile p) ≠ [] := by
      simpa using hcf
    exact ⟨p, rfl, hne, by simp [handler, hurl, hsel, hne]⟩

theorem fallback_audio_mem (env : Env) (lang : List Char) :
    Ev.audioDl ∈ (fallbackASR env lang).2 := by
  cases hda : download_audio env with
  | exn e => simp [fallbackASR, hda]
  | ret p =>
    cases ht : transcribe_with_faster_whisper env with
    | exn e => simp [fallbackASR, hda, ht]
    | ret text => by_cases hx : text = [] <;> simp [fallbackASR, hda, ht, hx]

theorem fallback_asr_trace (env : Env) (lang : List Char)
    (h : Ev.asrCall ∈ (fallbackASR env lang).2) :
    (fallbackASR env lang).2 = [Ev.subsManual, Ev.subsAuto, Ev.audioDl, Ev.asrCall] := by
  cases hda : download_audio env with
  | exn e => exfalso; simp [fallbackASR, hda] at h
  | ret p =>
    cases ht : transcribe_with_faster_whisper env with
    | exn e => simp [fallbackASR, hda, ht]
    | ret text => by_cases hx : text = [] <;> simp [fallbackASR, hda, ht, hx]

/-- C2 (amended): captions are attempted before ASR and ASR runs only
after the caption tier failed.  Precisely: (i) if the ASR collaborator
was invoked, the caption tier yielded no asset or empty text, and the
trace is exactly both subtitle attempts, then the audio download, then
ASR; (ii) if the caption tier yielded usable text, ASR is never invoked
and the handler returns that text with method "subtitles"; (iii) if the
caption fetch yields no asset, the fallback tier is always entered (the
audio download is invoked — no silent success).  The original claim's
"invoked if and only if" fails: when the audio download faults, ASR is
not invoked even though captions yielded nothing. -/
theorem c2_captions_before_asr (env : Env) (req : Request)
    (hurl : reqUrl req ≠ []) :
    (Ev.asrCall ∈ (handler env req).2 →
        captionsFailed env (reqLang req) = true ∧
        (handler env req).2 = [Ev.subsManual, Ev.subsAuto, Ev.audioDl, Ev.asrCall]) ∧
    (captionsFailed env (reqLang req) = false →
        Ev.asrCall ∉ (handler env req).2 ∧
        ∃ t, (handler env req).1 =
          POut.ret (Response.ok t ("subtitles").data (reqLang req))) ∧
    (download_subtitles env.workdir env.filesAfterSubs (reqLang req) = none →
        Ev.audioDl ∈ (handler env req).2) := by
  refine ⟨?_, ?_, ?_⟩
  · intro hasr
    cases hcf : captionsFailed env (reqLang req) with
    | true =>
      have heq := handler_eq_fallback env req hurl hcf
      rw [heq] at hasr ⊢
      exact ⟨rfl, fallback_asr_trace env (reqLang req) hasr⟩
    | false =>
      exfalso
      obtain ⟨p, hsel, hne, heq⟩ := handler_eq_captions env req hurl hcf
      rw [heq] at hasr
      simp at hasr
  · intro hcf
    obtain ⟨p, hsel, hne, heq⟩ := handler_eq_captions env req hurl hcf
    rw [heq]
    exact ⟨by simp, ⟨parse_vtt_to_text (env.readFile p), rfl⟩⟩
  · intro hsel
    have hcf : captionsFailed env (reqLang req) = true := by
      simp [captionsFailed, hsel]
    rw [handler_eq_fallback env req hurl hcf]
    exact fallback_audio_mem env (reqLang req)

/-- Witness for C2 (amended): captions succeed, ASR is not invoked, the
returned method is "subtitles". -/
theorem c2_captions_before_asr_witness :
    Ev.asrCall ∉ (handler envBroadCaptions reqMain).2 ∧
    ∃ t, (handler envBroadCaptions reqMain).1 =
      POut.ret (Response.ok t ("subtitles").data (reqLang reqMain)) :=
  (c2_captions_before_asr envBroadCaptions reqMain (by decide)).2.1 (by decide)

/-- C2 counterexample: captions yield no asset, yet ASR is never invoked
because the audio download faults first — refuting "the ASR collaborator
is invoked if and only if the caption tier yields no asset or empty
parsed text". -/
theorem c2_asr_iff_counterexample :
    download_subtitles envNoCapAudioRaise.workdir envNoCapAudioRaise.filesAfterSubs
        (reqLang reqMain) = none ∧
    Ev.asrCall ∉ (handler envNoCapAudioRaise reqMain).2 := by
  constructor
  · decide
  · decide

/-- C3 (amended): if the caption tier yields no usable text and the audio
download runs but deposits zero files, the handler raises the
RuntimeError "Audio download produced no file" (the message escapes as an
exception rather than being returned as an error record), and ASR is
never invoked. -/
theorem c3_zero_files_raises (env : Env) (req : Request)
    (hurl : reqUrl req ≠ [])
    (hcf : captionsFailed env (reqLang req) = true)
    (hrun : env.audioRun = POut.ret ())
    (hglob : env.filesAfterAudio.filter audioMatch = []) :
    (handler env req).1 = POut.exn ("Audio download produced no file").data ∧
    Ev.asrCall ∉ (handler env req).2 := by
  rw [handler_eq_fallback env req hurl hcf]
  have hda : download_audio env = POut.exn ("Audio download produced no file").data := by
    simp [download_audio, hrun, hglob]
  exact ⟨by simp [fallbackASR, hda], by simp [fallbackASR, hda]⟩

/-- Witness for C3 (amended) at a concrete environment. -/
theorem c3_zero_files_raises_witness :
    (handler envNoCapNoAudioFile reqMain).1 =
      POut.exn ("Audio download produced no file").data ∧
    Ev.asrCall ∉ (handler envNoCapNoAudioFile reqMain).2 :=
  c3_zero_files_raises envNoCapNoAudioFile reqMain (by decide) (by decide)
    (by decide) (by decide)

/-- C3 counterexample: in the zero-file case the pipeline does not return
the structured record TranscriptError — neither with the code's message
nor with the claim's lower-case message — it raises instead (ASR still
never invoked). -/
theorem c3_no_error_record_counterexample :
    (handler envNoCapNoAudioFile reqMain).1 ≠
      POut.ret (Response.err ("Audio download produced no file").data) ∧
    (handler envNoCapNoAudioFile reqMain).1 ≠
      POut.ret (Response.err ("audio download produced no file").data) ∧
    Ev.asrCall ∉ (handler envNoCapNoAudioFile reqMain).2 := by
  refine ⟨?_, ?_, ?_⟩ <;> decide

theorem strict_imp_broad (f : List Char) (h : strictMatch f = true) :
    broadMatch f = true := by
  unfold strictMatch at h
  simp only [Bool.and_eq_true] at h
  obtain ⟨⟨hpre, hsuf⟩, _⟩ := h
  obtain ⟨t, ht⟩ := List.isPrefixOf_iff_prefix.mp hpre
  rw [← ht] at hsuf ⊢
  have hshape : ("subs.").data ++ t = 's' :: (("ubs.").data ++ t) := rfl
  rw [hshape] at hsuf ⊢
  unfold broadMatch
  simp only [Bool.and_eq_true, decide_eq_true_eq]
  exact ⟨by decide, hsuf⟩

theorem download_subtitles_broad (workdir : List Char) (files : List (List Char))
    (lang : List Char) (hfs : files.filter strictMatch = []) :
    download_subtitles workdir files lang =
      match (files.filter broadMatch).map (fun n => workdir ++ '/' :: n) with
      | [] => none
      | v :: vs =>
        match (v :: vs).find? (fun p => langTagIn lang p) with
        | some p => some p
        | none => some v := by
  simp [download_subtitles, hfs]

theorem download_subtitles_strict (workdir : List Char) (files : List (List Char))
    (lang : List Char) (g : List Char) (gs : List (List Char))
    (hfs : files.filter strictMatch = g :: gs) :
    download_subtitles workdir files lang =
      match ((g :: gs).map (fun n => workdir ++ '/' :: n)).find?
          (fun p => langTagIn lang p) with
      | some p => some p
      | none => some (workdir ++ '/' :: g) := by
  simp [download_subtitles, hfs]

theorem download_subtitles_ne_none (workdir : List Char) (files : List (List Char))
    (lang f : List Char) (hf : f ∈ files) (hb : broadMatch f = true) :
    download_subtitles workdir files lang ≠ none := by
  have hmem : f ∈ files.filter broadMatch := List.mem_filter.mpr ⟨hf, hb⟩
  cases hfs : files.filter strictMatch with
  | nil =>
    rw [download_subtitles_broad workdir files lang hfs]
    cases hfb : files.filter broadMatch with
    | nil => rw [hfb] at hmem; simp at hmem
    | cons b bs =>
      simp only [List.map_cons]
      cases hfind : ((workdir ++ '/' :: b) :: bs.map (fun n => workdir ++ '/' :: n)).find?
          (fun p => langTagIn lang p) with
      | some q => simp [hfind]
      | none => simp [hfind]
  | cons g gs =>
    rw [download_subtitles_strict workdir files lang g gs hfs]
    cases hfind : ((g :: gs).map (fun n => workdir ++ '/' :: n)).find?
        (fun p => langTagIn lang p) with
    | some q => simp [hfind]
    | none => simp [hfind]

theorem download_subtitles_none (workdir : List Char) (files : List (List Char))
    (lang : List Char) (h : ∀ f ∈ files, broadMatch f = false) :
    download_subtitles workdir files lang = none := by
  have hfb : files.filter broadMatch = [] := by
    apply List.filter_eq_nil_iff.mpr
    intro a ha
    simp [h a ha]
  have hfs : files.filter strictMatch = [] := by
    apply List.filter_eq_nil_iff.mpr
    intro a ha hcon
    have := strict_imp_broad a hcon
    rw [h a ha] at this
    exact Bool.noConfusion this
  rw [download_subtitles_broad workdir files lang hfs, hfb]
  rfl

theorem download_subtitles_mem (workdir : List Char) (files : List (List Char))
    (lang p : List Char) (h : download_subtitles workdir files lang = some p) :
    ∃ f ∈ files, p = workdir ++ '/' :: f ∧ broadMatch f = true := by
  cases hfs : files.filter strictMatch with
  | nil =>
    rw [download_subtitles_broad workdir files lang hfs] at h
    cases hfb : files.filter broadMatch with
    | nil => rw [hfb] at h; simp at h
    | cons b bs =>
      rw [hfb] at h
      simp only [List.map_cons] at h
      have hp : p ∈ ((workdir ++ '/' :: b) :: bs.map (fun n => workdir ++ '/' :: n)) := by
        cases hfind : ((workdir ++ '/' :: b) :: bs.map (fun n => workdir ++ '/' :: n)).find?
            (fun q => langTagIn lang q) with
        | some q =>
          rw [hfind] at h
          simp only [Option.some.injEq] at h
          rw [← h]
          exact List.mem_of_find?_eq_some hfind
        | none =>
          rw [hfind] at h
          simp only [Option.some.injEq] at h
          rw [← h]
          exact List.mem_cons_self _ _
      have hp2 : ∃ f ∈ files.filter broadMatch, p = workdir ++ '/' :: f := by
        rcases List.mem_cons.mp hp with h1 | h2
        · exact ⟨b, by rw [hfb]; exact List.mem_cons_self _ _, h1⟩
        · obtain ⟨f, hf, hpf⟩ := List.mem_map.mp h2
          exact ⟨f, by rw [hfb]; exact List.mem_cons_of_mem b hf, hpf.symm⟩
      obtain ⟨f, hf_filter, hpf⟩ := hp2
      have hsplit := List.mem_filter.mp hf_filter
      exact ⟨f, hsplit.1, hpf, hsplit.2⟩
  | cons g gs =>
    rw [download_subtitles_strict workdir files lang g gs hfs] at h
    have hp : p ∈ (g :: gs).map (fun n => workdir ++ '/' :: n) := by
      cases hfind : ((g :: gs).map (fun n => workdir ++ '/' :: n)).find?
          (fun q => langTagIn lang q) with
      | some q =>
        rw [hfind] at h
        simp only [Option.some.injEq] at h
        rw [← h]
        exact List.mem_of_find?_eq_some hfind
      | none =>
        rw [hfind] at h
        simp only [Option.some.injEq] at h
        rw [← h]
        simp
    rw [← hfs] at hp
    obtain ⟨f, hf_filter, hpf⟩ := List.mem_map.mp hp
    have hsplit := List.mem_filter.mp hf_filter
    exact ⟨f, hsplit.1, hpf.symm, strict_imp_broad f hsplit.2⟩

theorem download_subtitles_tag (workdir : List Char) (files : List (List Char))
    (lang : List Char)
    (hex : ∃ f ∈ files, strictMatch f = true ∧ langTagIn lang (workdir ++ '/' :: f) = true) :
    ∃ p, download_subtitles workdir files lang = some p ∧ langTagIn lang p = true := by
  obtain ⟨f, hf, hstrict, htag⟩ := hex
  have hmem : f ∈ files.filter strictMatch := List.mem_filter.mpr ⟨hf, hstrict⟩
  cases hfs : files.filter strictMatch with
  | nil => rw [hfs] at hmem; simp at hmem
  | cons g gs =>
    rw [download_subtitles_strict workdir files lang g gs hfs]
    have hmk : (workdir ++ '/' :: f) ∈ (g :: gs).map (fun n => workdir ++ '/' :: n) := by
      apply List.mem_map.mpr
      exact ⟨f, by rw [← hfs]; exact hmem, rfl⟩
    cases hfind : ((g :: gs).map (fun n => workdir ++ '/' :: n)).find?
        (fun p => langTagIn lang p) with
    | none =>
      exfalso
      have := List.find?_eq_none.mp hfind _ hmk
      simp [htag] at this
    | some q =>
      refine ⟨q, by simp, ?_⟩
      have := List.find?_some hfind
      simpa using this

theorem download_subtitles_first (workdir : List Char) (files : List (List Char))
    (lang f0 : List Char) (fs : List (List Char))
    (hfs : files.filter strictMatch = f0 :: fs)
    (hno : ∀ f ∈ files, langTagIn lang (workdir ++ '/' :: f) = false) :
    download_subtitles workdir files lang = some (workdir ++ '/' :: f0) := by
  rw [download_subtitles_strict workdir files lang f0 fs hfs]
  have hfind : ((f0 :: fs).map (fun n => workdir ++ '/' :: n)).find?
      (fun p => langTagIn lang p) = none := by
    apply List.find?_eq_none.mpr
    intro x hx
    obtain ⟨f, hf, hxf⟩ := List.mem_map.mp hx
    have hf_files : f ∈ files := (List.mem_filter.mp (by rw [hfs]; exact hf)).1
    rw [← hxf]
    simp [hno f hf_files]
  rw [hfind]

/-- C5 (amended): after both fetch attempts the fetcher scans with the
strict pattern and broadens only when nothing matched: the result is
`none` exactly when no file is caption-formatted; any returned path is a
caption-formatted file of the directory; a strict candidate embedding the
requested language tag forces the result to embed the tag; with no tagged
candidate the result is the first strict candidate in
directory-enumeration order — not in sorted order, since `glob.glob` does
not sort. -/
theorem c5_selection (workdir : List Char) (files : List (List Char)) (lang : List Char) :
    (download_subtitles workdir files lang = none ↔ ∀ f ∈ files, broadMatch f = false) ∧
    (∀ p, download_subtitles workdir files lang = some p →
        ∃ f ∈ files, p = workdir ++ '/' :: f ∧ broadMatch f = true) ∧
    ((∃ f ∈ files, strictMatch f = true ∧ langTagIn lang (workdir ++ '/' :: f) = true) →
        ∃ p, download_subtitles workdir files lang = some p ∧ langTagIn lang p = true) ∧
    (∀ f0 fs, files.filter strictMatch = f0 :: fs →
        (∀ f ∈ files, langTagIn lang (workdir ++ '/' :: f) = false) →
        download_subtitles workdir files lang = some (workdir ++ '/' :: f0)) := by
  refine ⟨⟨?_, fun h => download_subtitles_none workdir files lang h⟩,
    fun p h => download_subtitles_mem workdir files lang p h,
    fun hex => download_subtitles_tag workdir files lang hex,
    fun f0 fs hfs hno => download_subtitles_first workdir files lang f0 fs hfs hno⟩
  intro hnone f hf
  cases hb : broadMatch f with
  | false => rfl
  | true => exact absurd hnone (download_subtitles_ne_none workdir files lang f hf hb)

/-- Witness for C5 (amended): a strict candidate embedding the tag ".en."
is selected. -/
theorem c5_selection_witness :
    ∃ p, download_subtitles wd0 [("subs.en.vtt").data, ("junk.txt").data] ("en").data
        = some p ∧ langTagIn ("en").data p = true :=
  (c5_selection wd0 [("subs.en.vtt").data, ("junk.txt").data] ("en").data).2.2.1
    ⟨("subs.en.vtt").data, by decide, by decide, by decide⟩

/-- C5 counterexample: with two strict candidates in
directory-enumeration order ["subs.zz.vtt", "subs.aa.vtt"] and no tag
match for "fr", the fetcher returns subs.zz.vtt — the first in scan
order — although subs.aa.vtt comes first in sorted (lexicographic)
order, refuting "the first candidate in sorted order". -/
theorem c5_scan_order_counterexample :
    download_subtitles wd0 [("subs.zz.vtt").data, ("subs.aa.vtt").data] ("fr").data
        = some (("/tmp/wd/subs.zz.vtt").data) ∧
    ("subs.aa.vtt").data < ("subs.zz.vtt").data ∧
    download_subtitles wd0 [("subs.zz.vtt").data, ("subs.aa.vtt").data] ("fr").data
        ≠ some (("/tmp/wd/subs.aa.vtt").data) := by
  refine ⟨?_, ?_, ?_⟩ <;> decide

theorem stripNotesAux_false_no_note (pre X : List (List Char))
    (hpre : ∀ l ∈ pre, l.take 4 ≠ ("NOTE").data) :
    stripNotesAux false (pre ++ X) = pre ++ stripNotesAux false X := by
  induction pre with
  | nil => simp
  | cons l pre2 ih =>
    have hl : l.take 4 ≠ ("NOTE").data := hpre l (List.mem_cons_self l pre2)
    simp only [List.cons_append]
    have hif : ¬(l.take 4 = ("NOTE").data ∧
        (dropThruBlank (l :: (pre2 ++ X))).isSome = true) := by
      intro hcon
      exact hl hcon.1
    rw [stripNotesAux, if_neg hif]
    rw [ih (fun m hm => hpre m (List.mem_cons_of_mem l hm))]

theorem dropThruBlank_thru (mid post : List (List Char))
    (hmid : ∀ m ∈ mid, m ≠ []) (hpost : post ≠ []) :
    dropThruBlank (mid ++ [] :: post) = some post := by
  induction mid with
  | nil =>
    cases post with
    | nil => exact absurd rfl hpost
    | cons q qs => simp [dropThruBlank]
  | cons m mid2 ih =>
    have hm : m ≠ [] := hmid m (List.mem_cons_self m mid2)
    have hne : mid2 ++ [] :: post ≠ [] := by simp
    cases hmp : mid2 ++ [] :: post with
    | nil => exact absurd hmp hne
    | cons a as =>
      simp only [List.cons_append, hmp]
      rw [dropThruBlank, if_neg hm, ← hmp]
      exact ih (fun x hx => hmid x (List.mem_cons_of_mem m hx))

theorem stripNotesAux_true_thru (mid post : List (List Char))
    (hmid : ∀ m ∈ mid, m ≠ []) :
    stripNotesAux true (mid ++ [] :: post) = stripNotesAux false post := by
  induction mid with
  | nil => simp [stripNotesAux]
  | cons m mid2 ih =>
    have hm : m ≠ [] := hmid m (List.mem_cons_self m mid2)
    simp only [List.cons_append]
    rw [stripNotesAux, if_neg hm]
    exact ih (fun x hx => hmid x (List.mem_cons_of_mem m hx))

/-- C9 (amended): every comment block that is terminated by a blank line
inside the document — a line starting with NOTE, through the next blank
line — is stripped wherever it occurs (after any prefix of non-NOTE
lines), contributing nothing to the parsed lines.  A NOTE block at the
very end of the document that is not followed by a blank line is not
matched by the substitution and is kept, so its text can appear in the
parser's output. -/
theorem c9_note_blocks (pre : List (List Char)) (note : List Char)
    (mid post : List (List Char))
    (hpre : ∀ l ∈ pre, l.take 4 ≠ ("NOTE").data)
    (hnote : note.take 4 = ("NOTE").data)
    (hmid : ∀ m ∈ mid, m ≠ [])
    (hpost : post ≠ []) :
    stripNotes (pre ++ note :: (mid ++ [] :: post)) = pre ++ stripNotes post := by
  unfold stripNotes
  rw [stripNotesAux_false_no_note pre _ hpre]
  congr 1
  have hmid2 : ∀ m ∈ note :: mid, m ≠ [] := by
    intro m hm
    rcases List.mem_cons.mp hm with h1 | h2
    · subst h1
      intro hcon
      rw [hcon] at hnote
      exact absurd hnote (by decide)
    · exact hmid m h2
  have hdrop : dropThruBlank (note :: (mid ++ [] :: post)) = some post := by
    have := dropThruBlank_thru (note :: mid) post hmid2 hpost
    simpa using this
  have hguard : note.take 4 = ("NOTE").data ∧
      (dropThruBlank (note :: (mid ++ [] :: post))).isSome = true :=
    ⟨hnote, by rw [hdrop]; rfl⟩
  rw [stripNotesAux, if_pos hguard]
  exact stripNotesAux_true_thru mid post hmid

/-- Witness for C9 (amended) on a concrete document: the terminated block
"NOTE x" / "y" / blank is removed wherever it stands. -/
theorem c9_note_blocks_witness :
    stripNotes ([[' ', 'A']] ++ ("NOTE x").data :: ([[' ', 'y']] ++ [] :: [[' ', 'B']]))
      = [[' ', 'A']] ++ stripNotes [[' ', 'B']] :=
  c9_note_blocks [[' ', 'A']] (("NOTE x").data) [[' ', 'y']] [[' ', 'B']]
    (by decide) (by decide) (by decide) (by decide)

/-- C9 counterexample: a comment block at the end of the document with no
terminating blank line leaks into the output: the parser keeps the line
"NOTE hidden", so text from the block appears in the result. -/
theorem c9_trailing_note_counterexample :
    parse_vtt_to_text ("WEBVTT\n\nHello\n\nNOTE hidden").data
        = ("Hello NOTE hidden").data ∧
    hasRun ("hidden").data
      (parse_vtt_to_text ("WEBVTT\n\nHello\n\nNOTE hidden").data) = true := by
  constructor
  · decide
  · decide
